import Mathlib

/-!
Verification of the keyword-based document comparison engine
(`src/Magic.py` and `src/Magic_Special.py`).

All string processing is modelled over `List Char` with executable,
structurally recursive functions mirroring the Python semantics
(`str.strip`, `str.lower`, `str.split('\n')`, substring containment,
`int(...)`, negative list indexing, `list.sort()`, `str.replace`).
The scope of the model is ASCII text, which covers all keyword and line
data handled by the tool.
-/

/-- ASCII/C0 whitespace characters recognised by Python's `str.strip()`. -/
def isPySpace (c : Char) : Bool :=
  c = ' ' || c = '\t' || c = '\n' || c = '\r' || c = '\x0b' || c = '\x0c'

/-- Python `str.strip()` on a character list: drop whitespace at both ends. -/
def pyStripList (cs : List Char) : List Char :=
  ((cs.dropWhile isPySpace).reverse.dropWhile isPySpace).reverse

/-- Python `str.strip()`. -/
def pyStrip (s : String) : String := String.mk (pyStripList s.data)

/-- Python `str.lower()` (ASCII scope). -/
def pyLower (s : String) : String := String.mk (s.data.map Char.toLower)

/-- Python `str.replace(" ", "")`: remove every space character (U+0020 only;
other whitespace such as tab is kept). Used by `compare` in Magic.py. -/
def stripSpaces (s : String) : String := String.mk (s.data.filter (· ≠ ' '))

/-- Python `text.split('\n')` on a character list: the result is always
non-empty and keeps empty segments (so `""` splits to `[[]]`). -/
def splitNl : List Char → List (List Char)
  | [] => [[]]
  | c :: rest =>
    match splitNl rest with
    | [] => [[]]
    | g :: gs => if c = '\n' then [] :: g :: gs else (c :: g) :: gs

/-- Python `text.split('\n')` on strings. -/
def pySplitLines (s : String) : List String := (splitNl s.data).map String.mk

/-- Python `sep.join(parts)`. -/
def pyJoin (sep : String) : List String → String
  | [] => ""
  | [s] => s
  | s :: rest => s ++ sep ++ pyJoin sep rest

/-- Is `pre` a prefix of `l` (Python-style, Bool valued)? -/
def listPre : List Char → List Char → Bool
  | [], _ => true
  | _ :: _, [] => false
  | a :: as, b :: bs => a == b && listPre as bs

/-- Python substring containment `needle in hay` (the empty needle is contained
in everything). -/
def isSub (needle : List Char) : List Char → Bool
  | [] => listPre needle []
  | c :: t => listPre needle (c :: t) || isSub needle t

/-- Python `needle in hay` on strings. -/
def strContains (hay needle : String) : Bool := isSub needle.data hay.data

/-- Python `s.startswith("_")`. -/
def startsUnderscore (s : String) : Bool :=
  match s.data with
  | '_' :: _ => true
  | _ => false

/-- Python `s.removeprefix("_")`. -/
def removeUnderscore (s : String) : String :=
  match s.data with
  | '_' :: rest => String.mk rest
  | _ => s

/-- Valid tail of a Python integer literal after its first digit:
digits with single underscores allowed between digits. -/
def pyDigitsTail : List Char → Bool
  | [] => true
  | '_' :: c :: rest => c.isDigit && pyDigitsTail rest
  | c :: rest => c.isDigit && pyDigitsTail rest

/-- Numeric value of a digit string, ignoring `_` separators. -/
def pyDigitsVal (cs : List Char) : Nat :=
  (cs.filter (· ≠ '_')).foldl (fun acc c => acc * 10 + (c.toNat - 48)) 0

/-- Parse an unsigned Python integer literal (digits, `_` only between
digits). -/
def pyDigits? (cs : List Char) : Option Nat :=
  match cs with
  | [] => none
  | '_' :: _ => none
  | c :: rest =>
    if c.isDigit && pyDigitsTail rest then some (pyDigitsVal (c :: rest)) else none

/-- Python `int(s)`: strip surrounding whitespace, optional sign, digits with
underscore separators; failure (`ValueError`) is `none`. -/
def pyInt? (s : String) : Option Int :=
  match pyStripList s.data with
  | '-' :: rest => (pyDigits? rest).map (fun n => -(n : Int))
  | '+' :: rest => (pyDigits? rest).map (fun n => (n : Int))
  | rest => (pyDigits? rest).map (fun n => (n : Int))

/-- Python list indexing `xs[i]` with negative-index wrap-around;
`none` is an `IndexError`. -/
def pyIndex (xs : List String) (i : Int) : Option String :=
  if 0 ≤ i then xs[i.toNat]?
  else if 0 ≤ (xs.length : Int) + i then xs[((xs.length : Int) + i).toNat]?
  else none

/-- Python `xs.insert(i, a)` (index clamped to the list length). -/
def pyInsert {α : Type} (xs : List α) (i : Nat) (a : α) : List α :=
  xs.take i ++ a :: xs.drop i

/-- Bool-valued lexicographic order on character lists by code point:
the order Python (and Lean) use to sort strings. -/
def lexLE : List Char → List Char → Bool
  | [], _ => true
  | _ :: _, [] => false
  | a :: as, b :: bs => if a < b then true else if b < a then false else lexLE as bs

/-- Lexicographic order on strings (Python string comparison). -/
def strLE (a b : String) : Prop := lexLE a.data b.data = true

instance : DecidableRel strLE := fun _ _ => inferInstanceAs (Decidable (_ = true))

/-- Python `list.sort()` on strings: the sorted permutation under the
code-point lexicographic order. -/
def pySort (l : List String) : List String := List.insertionSort strLE l

/-- Python `list(set(xs)); xs.sort()`: the sorted list of the distinct
elements of `xs`. -/
def sortDedup (l : List String) : List String := pySort l.dedup

/-- A cell of a result row: Python rows mix strings and booleans. -/
inductive Cell where
  | str (s : String)
  | bool (b : Bool)
deriving DecidableEq, Repr

namespace Magic

/-- Body of one iteration of the keyword loop in `search_for_words`
(Magic.py lines 159-168): positional keywords (leading underscore) select
the line at Python index `int(tail) - 1`; substring keywords collect the
stripped form of every line whose stripped, lowercased form contains the
stripped, lowercased keyword; an empty match list is replaced by `[""]`.
`none` models the `ValueError`/`IndexError` a positional keyword can raise. -/
def matchesForKeyword (keyword : String) (text : String) : Option (List String) := do
  let ms ←
    if startsUnderscore keyword then do
      let n ← pyInt? (removeUnderscore keyword)
      let line ← pyIndex (pySplitLines text) (n - 1)
      pure [line]
    else
      pure ((pySplitLines text).filterMap (fun line =>
        if strContains (pyLower (pyStrip line)) (pyLower (pyStrip keyword)) then
          some (pyStrip line)
        else none))
  pure (if ms = [] then [""] else ms)

/-- Insert key `k` with value `[]` unless present (one step of the Python
dict comprehension `{keyword.strip(): [] for keyword in keywords}`;
re-inserting an existing key overwrites `[]` with `[]`, a no-op). -/
def dictInsertNew (d : List (String × List String)) (k : String) :
    List (String × List String) :=
  if d.any (fun p => p.1 == k) then d else d ++ [(k, [])]

/-- Python `matches_by_word[k].extend(extra)`: append to the value at key
`k`, leaving other entries unchanged. -/
def dictExtendAt (d : List (String × List String)) (k : String)
    (extra : List String) : List (String × List String) :=
  d.map (fun p => if p.1 == k then (p.1, p.2 ++ extra) else p)

/-- Python dict lookup `d[k]` (`none` is a `KeyError`). -/
def dictLookup (d : List (String × List String)) (k : String) :
    Option (List String) :=
  (d.find? (fun p => p.1 == k)).map (fun p => p.2)

/-- The dict comprehension `{keyword.strip(): [] for keyword in keywords}`
(Magic.py line 158). -/
def initDict (keywords : List String) : List (String × List String) :=
  keywords.foldl (fun d kw => dictInsertNew d (pyStrip kw)) []

/-- One iteration of the keyword loop of `search_for_words`: compute the
keyword's matches and extend the entry at the stripped keyword. -/
def swwStep (text : String) (d : List (String × List String)) (kw : String) :
    Option (List (String × List String)) := do
  let ms ← matchesForKeyword kw text
  pure (dictExtendAt d (pyStrip kw) ms)

/-- `search_for_words(keywords, text)` from Magic.py lines 156-170 (the
identical function appears at Magic_Special.py lines 51-64): build the
dict keyed by stripped keywords, then for each keyword extend its entry
with that keyword's matches. A raised exception (bad positional keyword)
aborts the whole call: `none`. -/
def search_for_words (keywords : List String) (text : String) :
    Option (List (String × List String)) :=
  keywords.foldlM (swwStep text) (initDict keywords)

/-- `compare(temp_list_1, temp_list_2)` from Magic.py lines 173-186:
remove spaces from every element, sort both lists, compare for equality. -/
def compare (l1 l2 : List String) : Bool :=
  decide (pySort (l1.map stripSpaces) = pySort (l2.map stripSpaces))

/-- The inner mapping lookup of `compare_and_mapping` (Magic.py lines
207-213): the first table row whose lowercased-stripped keyword equals the
lowercased-stripped changed feature supplies the feature name
(lowercased, stripped); otherwise the changed feature itself is used. -/
def mapFeature (keyword_mapping : List (String × String)) (cf : String) : String :=
  match keyword_mapping.find? (fun p => pyStrip (pyLower cf) == pyStrip (pyLower p.1)) with
  | some p => pyStrip (pyLower p.2)
  | none => pyStrip (pyLower cf)

/-- Loop state of `compare_and_mapping`: the per-keyword triples list, the
changed features and the (repeatedly re-accumulated) mapped features. -/
structure CMState where
  df : List Cell
  changed : List String
  mapped : List String
deriving Repr, DecidableEq

/-- One iteration of the keyword loop of `compare_and_mapping` (Magic.py
lines 196-213): look both match lists up, record the keyword as changed if
they compare unequal, append the `join`ed triple, then re-map every changed
feature so far into `mapped`. -/
def cmStep (m1 m2 : List (String × List String))
    (keyword_mapping : List (String × String)) (st : CMState) (kw : String) :
    Option CMState := do
  let l1 ← dictLookup m1 (pyStrip kw)
  let l2 ← dictLookup m2 (pyStrip kw)
  let changed := if compare l1 l2 then st.changed else st.changed ++ [pyStrip kw]
  pure ⟨st.df ++ [Cell.str (pyJoin "|" l1), Cell.str (pyJoin "|" l2),
          Cell.bool (compare l1 l2)],
        changed,
        st.mapped ++ changed.map (mapFeature keyword_mapping)⟩

/-- `compare_and_mapping` from Magic.py lines 189-221: run the keyword
loop, deduplicate and sort the mapped features, then prepend the change
flag, the joined changed features and the joined mapped features. -/
def compare_and_mapping (m1 m2 : List (String × List String))
    (keywords : List String) (keyword_mapping : List (String × String)) :
    Option (List Cell) := do
  let st ← keywords.foldlM (cmStep m1 m2 keyword_mapping) ⟨[], [], []⟩
  let mappedS := sortDedup st.mapped
  pure (Cell.str (if st.changed = [] then "No" else "Yes") ::
        Cell.str (pyJoin ", " st.changed) ::
        Cell.str (pyJoin ", " mappedS) :: st.df)

/-- The external document reader (PyMuPDF in the source): page count via
`count_of_pages` and normalized block lines via `fitz_extract_all_words`;
`none` models a raised I/O error. -/
structure Reader where
  pageCount : String → Option Nat
  extractLines : String → Option (List String)

/-- The fixed path fragment removed from the joined link pair
(Magic.py lines 232 and 244). -/
def magicPath : String := "\\\\10.199.104.50\\pdfs"

/-- Recursion core of `removeAll`, structurally recursive on a fuel that
bounds the number of characters still to consume (each step consumes at
least one character of a non-empty pattern match or copies one character). -/
def removeAllAux (pat : List Char) : Nat → List Char → List Char
  | _, [] => []
  | 0, hay => hay
  | fuel + 1, c :: rest =>
    if listPre pat (c :: rest) then removeAllAux pat fuel ((c :: rest).drop pat.length)
    else c :: removeAllAux pat fuel rest

/-- Python `s.replace(pat, "")` for a non-empty pattern: delete every
(leftmost, non-overlapping) occurrence of `pat`. -/
def removeAll (pat : List Char) (hay : List Char) : List Char :=
  if pat = [] then hay else removeAllAux pat hay.length hay

/-- `"".join(links).replace('\\\\10.199.104.50\\pdfs', "")`. -/
def oldLatest (links : String × String) : String :=
  String.mk (removeAll magicPath.data (links.1 ++ links.2).data)

/-- `magic_main(links, keywords, vendor_code, keyword_mapping)` from
Magic.py lines 224-251, with the document reader as an explicit oracle.
Any failing step (`none` from an oracle or from `search_for_words`) is the
caught exception of the Python `try`, producing the "Error in reading"
row; the function itself is total: no exception escapes. -/
def magic_main (r : Reader) (links : String × String) (keywords : List String)
    (vendor_code : String) (keyword_mapping : List (String × String)) : List Cell :=
  let errRow := [Cell.str links.1, Cell.str links.2, Cell.str (oldLatest links),
                 Cell.str "Error in reading"]
  match r.pageCount links.1, r.pageCount links.2 with
  | some num_pages_1, some num_pages_2 =>
    if num_pages_2 > 200 || num_pages_1 > 200 then
      [Cell.str links.1, Cell.str links.2, Cell.str (oldLatest links),
       Cell.str "Page limit exceeded"]
    else
      match r.extractLines links.1, r.extractLines links.2 with
      | some lines1, some lines2 =>
        let text1 := pyJoin "\n" (lines1.map pyLower)
        let text2 := pyJoin "\n" (lines2.map pyLower)
        match search_for_words keywords text1, search_for_words keywords text2 with
        | some m1, some m2 =>
          match compare_and_mapping m1 m2 keywords keyword_mapping with
          | some row =>
            Cell.str links.1 :: Cell.str links.2 :: Cell.str (oldLatest links) ::
            Cell.str vendor_code :: Cell.str (toString text1.length) ::
            Cell.str (toString text2.length) :: row
          | none => errRow
        | _, _ => errRow
      | _, _ => errRow
  | _, _ => errRow

/-- Recursion core of `chunkList`, structurally recursive on a fuel that
bounds the number of chunks (each chunk of positive size consumes at least
one element). -/
def chunkListAux {α : Type} (n : Nat) : Nat → List α → List (List α)
  | _, [] => []
  | 0, _ :: _ => []
  | fuel + 1, x :: rest => (x :: rest).take n :: chunkListAux n fuel ((x :: rest).drop n)

/-- The batch partition of the vendor loop (Magic.py line 370:
`links_list[i:i + one_time_count]` for `i in range(0, len, one_time_count)`). -/
def chunkList {α : Type} (n : Nat) (xs : List α) : List (List α) :=
  chunkListAux n xs.length xs

/-- The Batch Scheduler (Magic.py lines 360-378): submit each batch to the
pool and drain its results, in submission order, into `results_list`.
`executor.map` yields results in the order of its input iterable, so one
batch contributes `batch.map eval`. -/
def scheduler {α β : Type} (eval : α → β) (batchSize : Nat) (pairs : List α) :
    List β :=
  (chunkList batchSize pairs).foldl (fun acc batch => acc ++ batch.map eval) []

end Magic

namespace Special

/-- Oracles for Magic_Special.py's external collaborators: page counts
(`count_of_pages`), full normalized text (`extract_all_text`, pdfplumber)
and the part-number comparison `compare_parts` (lines 132-164), whose
internals (regex normalization via `re.sub`, and `sce_part_number`, which
reads font metadata with pdfplumber) are I/O- and regex-bound and are not
needed by any claim; `compare_parts` can itself raise (for example
`UnboundLocalError` when the part keyword is `'xxx'` and the vendor is not
`'SCE'`), hence its `Option` result. It returns `(part_1, part_2, status)`. -/
structure SReader where
  pageCount : String → Option Nat
  extractText : String → Option String
  compareParts : String × String → String → String → List String → String →
    Option (String × String × String)

/-- The fixed path fragment removed from the joined link pair
(Magic_Special.py lines 175, 187, 199, 206). -/
def specialPath : String := "\\\\10.199.104.160\\pdfs"

/-- `"".join(links).replace('\\\\10.199.104.160\\pdfs', "")`. -/
def oldLatest (links : String × String) : String :=
  String.mk (Magic.removeAll specialPath.data (links.1 ++ links.2).data)

/-- One iteration of the keyword loop of Magic_Special.py's
`compare_and_mapping` (lines 87-102): like Magic.py's but with no
per-keyword triple columns; the state is `(changed, mapped)`. -/
def cmStep (m1 m2 : List (String × List String))
    (keyword_mapping : List (String × String))
    (st : List String × List String) (kw : String) :
    Option (List String × List String) := do
  let l1 ← Magic.dictLookup m1 (pyStrip kw)
  let l2 ← Magic.dictLookup m2 (pyStrip kw)
  let changed := if Magic.compare l1 l2 then st.1 else st.1 ++ [pyStrip kw]
  pure (changed, st.2 ++ changed.map (Magic.mapFeature keyword_mapping))

/-- `compare_and_mapping` from Magic_Special.py lines 82-129: the keyword
loop, then a result row that depends on the change flag and the
part-number status. -/
def compare_and_mapping (m1 m2 : List (String × List String))
    (part_1 part_2 part_status : String) (keywords : List String)
    (keyword_mapping : List (String × String)) : Option (List Cell) := do
  let st ← keywords.foldlM (cmStep m1 m2 keyword_mapping) ([], [])
  let flag := if st.1 = [] then "No" else "Yes"
  let base := [Cell.str flag, Cell.str (pyJoin ", " (sortDedup st.2))]
  pure
    (if flag = "Yes" ∧ part_status = "Equal" then
      Cell.str "Done" :: Cell.str part_1 :: Cell.str part_2 :: Cell.str "Done" ::
        Cell.str "" :: Cell.str "Equal Parts" :: base
    else if flag = "No" ∧ part_status = "Equal" then
      Cell.str "Done" :: Cell.str part_1 :: Cell.str part_2 :: Cell.str "Done" ::
        Cell.str "" :: Cell.str "Equal Manual" :: base
    else [Cell.str "Reject", Cell.str "Not Compatible"])

/-- `magic_main` from Magic_Special.py lines 167-206. Note the page
ceiling is 50 and the guard row carries the vendor code and a "Reject"
marker; the caught-exception row carries the vendor code and "Error". -/
def magic_main (r : SReader) (links : String × String) (keywords : List String)
    (vendor_code : String) (part_keyword : List String)
    (keyword_mapping : List (String × String)) : List Cell :=
  let errRow := [Cell.str links.1, Cell.str links.2, Cell.str (oldLatest links),
                 Cell.str vendor_code, Cell.str "Error"]
  match r.pageCount links.1, r.pageCount links.2 with
  | some num_pages_1, some num_pages_2 =>
    if num_pages_2 > 50 || num_pages_1 > 50 then
      [Cell.str links.1, Cell.str links.2, Cell.str (oldLatest links),
       Cell.str vendor_code, Cell.str "Reject", Cell.str "Page limit exceeded"]
    else
      match r.extractText links.1, r.extractText links.2 with
      | some text1, some text2 =>
        match r.compareParts links text1 text2 part_keyword vendor_code with
        | some (part_1, part_2, part_status) =>
          if part_status ≠ "Equal" then
            [Cell.str links.1, Cell.str links.2, Cell.str (oldLatest links),
             Cell.str vendor_code, Cell.str "Reject", Cell.str "Not Compatible"]
          else
            match Magic.search_for_words keywords text1,
                Magic.search_for_words keywords text2 with
            | some m1, some m2 =>
              match compare_and_mapping m1 m2 part_1 part_2 part_status keywords
                  keyword_mapping with
              | some row =>
                Cell.str links.1 :: Cell.str links.2 :: Cell.str (oldLatest links) ::
                  Cell.str vendor_code ::
                  pyInsert (pyInsert row 1 (Cell.str (toString text2.length))) 1
                    (Cell.str (toString text1.length))
              | none => errRow
            | _, _ => errRow
        | none => errRow
      | _, _ => errRow
  | _, _ => errRow

end Special

/-! ### Closed forms used to characterise the loops (proved equal to the
translated folds below) -/

/-- The value a successful `search_for_words` call stores under key `k`:
the concatenated matches of every keyword occurrence whose stripped form
is `k`. -/
def swwFun (keywords : List String) (text : String) (k : String) : List String :=
  (keywords.filter (fun kw => pyStrip kw == k)).flatMap
    (fun kw => (Magic.matchesForKeyword kw text).getD [])

/-- The match list `matches_by_word[keyword.strip()]` read by
`compare_and_mapping` for keyword `kw`. -/
def entryOf (m : List (String × List String)) (kw : String) : List String :=
  (Magic.dictLookup m (pyStrip kw)).getD []

/-- The contribution of one keyword to `changed_features`. -/
def changedAdd (m1 m2 : List (String × List String)) (kw : String) : List String :=
  if Magic.compare (entryOf m1 kw) (entryOf m2 kw) then [] else [pyStrip kw]

/-- The final `changed_features` list: the stripped changed keywords in
keyword-list order. -/
def changedKws (m1 m2 : List (String × List String)) (ks : List String) : List String :=
  ks.flatMap (changedAdd m1 m2)

/-- The three per-keyword cells appended to `df_list`. -/
def tripleCells (m1 m2 : List (String × List String)) (kw : String) : List Cell :=
  [Cell.str (pyJoin "|" (entryOf m1 kw)), Cell.str (pyJoin "|" (entryOf m2 kw)),
   Cell.bool (Magic.compare (entryOf m1 kw) (entryOf m2 kw))]

/-- The per-keyword triple section of the result row. -/
def dfAdds (m1 m2 : List (String × List String)) (ks : List String) : List Cell :=
  ks.flatMap (tripleCells m1 m2)

/-- The additions made to `mapped_features` by the keyword loop when it
starts with accumulated changed features `c0`: every iteration re-maps the
whole changed list accumulated so far. -/
def mappedAdds (m1 m2 : List (String × List String)) (tbl : List (String × String))
    (c0 : List String) : List String → List String
  | [] => []
  | kw :: ks =>
    (c0 ++ changedAdd m1 m2 kw).map (Magic.mapFeature tbl) ++
      mappedAdds m1 m2 tbl (c0 ++ changedAdd m1 m2 kw) ks

/-- Closed form of a successful `compare_and_mapping` result row. -/
def cmSpec (m1 m2 : List (String × List String)) (ks : List String)
    (tbl : List (String × String)) : List Cell :=
  Cell.str (if changedKws m1 m2 ks = [] then "No" else "Yes") ::
  Cell.str (pyJoin ", " (changedKws m1 m2 ks)) ::
  Cell.str (pyJoin ", "
    (sortDedup ((changedKws m1 m2 ks).map (Magic.mapFeature tbl)))) ::
  dfAdds m1 m2 ks

/-- Modelled from the spec: "strip all whitespace from every element"
(Set Comparator, spec section 4.2) read literally — removes every
whitespace character, not only spaces. Used only to compare the spec's
wording against the code's space-only removal (`stripSpaces`). -/
def stripWhitespaceSpec (s : String) : String :=
  String.mk (s.data.filter (fun c => !isPySpace c))

/-- A single pair evaluation fails at some step: a page-count I/O fault, a
text-extraction fault past the page guard, or a `search_for_words` fault
(malformed or out-of-range positional keyword) past extraction. These are
exactly the exceptions caught by `magic_main`'s `try`. -/
def stepFails (r : Magic.Reader) (links : String × String) (ks : List String) : Prop :=
  r.pageCount links.1 = none ∨ r.pageCount links.2 = none ∨
  ∃ n1 n2, r.pageCount links.1 = some n1 ∧ r.pageCount links.2 = some n2 ∧
    n1 ≤ 200 ∧ n2 ≤ 200 ∧
    (r.extractLines links.1 = none ∨ r.extractLines links.2 = none ∨
      ∃ l1 l2, r.extractLines links.1 = some l1 ∧ r.extractLines links.2 = some l2 ∧
        (Magic.search_for_words ks (pyJoin "\n" (l1.map pyLower)) = none ∨
         Magic.search_for_words ks (pyJoin "\n" (l2.map pyLower)) = none))

/-- Concrete reader: one-page documents whose extracted lines make both
keywords "b" and "a" change between the two documents. -/
def readerBA : Magic.Reader :=
  ⟨fun _ => some 1, fun l => if l = "o" then some ["b x", "a x"] else some ["b y", "a y"]⟩

/-- Concrete reader whose page-count oracle always faults. -/
def failReader : Magic.Reader := ⟨fun _ => none, fun _ => none⟩

/-- Concrete Magic_Special reader: every document reports 250 pages. -/
def sreaderPages250 : Special.SReader :=
  ⟨fun _ => some 250, fun _ => none, fun _ _ _ _ _ => none⟩

/-! ### Sorting and comparator lemmas -/

theorem lexLE_total (a b : List Char) : lexLE a b = true ∨ lexLE b a = true := by
  induction a generalizing b with
  | nil => left; rfl
  | cons x xs ih =>
    cases b with
    | nil => right; rfl
    | cons y ys =>
      simp only [lexLE]
      rcases lt_trichotomy x y with h | h | h
      · left; simp [h]
      · subst h
        simp [lt_irrefl]
        exact ih ys
      · right; simp [h]

theorem lexLE_trans (a b c : List Char) (h1 : lexLE a b = true) (h2 : lexLE b c = true) :
    lexLE a c = true := by
  induction a generalizing b c with
  | nil => rfl
  | cons x xs ih =>
    cases b with
    | nil => simp [lexLE] at h1
    | cons y ys =>
      cases c with
      | nil => simp [lexLE] at h2
      | cons z zs =>
        simp only [lexLE] at h1 h2 ⊢
        rcases lt_trichotomy x y with hxy | hxy | hxy
        · rcases lt_trichotomy y z with hyz | hyz | hyz
          · simp [lt_trans hxy hyz]
          · subst hyz; simp [hxy]
          · by_cases hxz : x < z
            · simp [hxz]
            · exfalso
              simp [hyz, asymm hyz] at h2
        · subst hxy
          rcases lt_trichotomy x z with hyz | hyz | hyz
          · simp [hyz]
          · subst hyz
            simp only [lt_irrefl, if_false] at h1 h2 ⊢
            exact ih ys zs h1 h2
          · exfalso; simp [asymm hyz, hyz] at h2
        · exfalso; simp [asymm hxy, hxy] at h1

theorem lexLE_antisymm (a b : List Char) (h1 : lexLE a b = true) (h2 : lexLE b a = true) :
    a = b := by
  induction a generalizing b with
  | nil =>
    cases b with
    | nil => rfl
    | cons y ys => simp [lexLE] at h2
  | cons x xs ih =>
    cases b with
    | nil => simp [lexLE] at h1
    | cons y ys =>
      simp only [lexLE] at h1 h2
      rcases lt_trichotomy x y with hxy | hxy | hxy
      · exfalso; simp [hxy, asymm hxy] at h2
      · subst hxy
        simp only [lt_irrefl, if_false] at h1 h2
        rw [ih ys h1 h2]
      · exfalso; simp [hxy, asymm hxy] at h1

instance : IsTotal String strLE := ⟨fun a b => lexLE_total a.data b.data⟩

instance : IsTrans String strLE := ⟨fun a b c => lexLE_trans a.data b.data c.data⟩

instance : IsAntisymm String strLE :=
  ⟨fun a b h1 h2 => by
    cases a; cases b
    exact congrArg String.mk (lexLE_antisymm _ _ h1 h2)⟩


theorem pySort_perm (l : List String) : (pySort l).Perm l :=
  List.perm_insertionSort strLE l

theorem pySort_sorted (l : List String) : List.Sorted strLE (pySort l) :=
  List.sorted_insertionSort strLE l

theorem pySort_eq_of_perm {l1 l2 : List String} (h : l1.Perm l2) :
    pySort l1 = pySort l2 :=
  List.eq_of_perm_of_sorted ((pySort_perm l1).trans (h.trans (pySort_perm l2).symm))
    (pySort_sorted l1) (pySort_sorted l2)

/-- The Set Comparator returns `true` exactly on multiset equality of the
space-stripped elements. -/
theorem compare_eq_true_iff (l1 l2 : List String) :
    Magic.compare l1 l2 = true ↔
      (↑(l1.map stripSpaces) : Multiset String) = ↑(l2.map stripSpaces) := by
  simp only [Magic.compare, decide_eq_true_eq, Multiset.coe_eq_coe]
  constructor
  · intro h
    exact ((pySort_perm _).symm.trans (h ▸ pySort_perm _ : (pySort (l1.map stripSpaces)).Perm _))
  · intro h
    exact pySort_eq_of_perm h

theorem mem_sortDedup {a : String} {l : List String} :
    a ∈ sortDedup l ↔ a ∈ l := by
  unfold sortDedup
  rw [(pySort_perm l.dedup).mem_iff, List.mem_dedup]

theorem sortDedup_nodup (l : List String) : (sortDedup l).Nodup :=
  ((pySort_perm l.dedup).nodup_iff).mpr (List.nodup_dedup l)

theorem sortDedup_sorted (l : List String) : List.Sorted strLE (sortDedup l) :=
  pySort_sorted l.dedup

theorem sortDedup_congr {x y : List String} (h : ∀ a, a ∈ x ↔ a ∈ y) :
    sortDedup x = sortDedup y := by
  unfold sortDedup
  apply pySort_eq_of_perm
  rw [List.perm_ext_iff_of_nodup (List.nodup_dedup x) (List.nodup_dedup y)]
  intro a
  rw [List.mem_dedup, List.mem_dedup]
  exact h a

/-! ### Dictionary lemmas for `search_for_words` -/

theorem dictLookup_cons (q : String × List String) (t : List (String × List String))
    (k' : String) :
    Magic.dictLookup (q :: t) k' =
      if q.1 = k' then some q.2 else Magic.dictLookup t k' := by
  unfold Magic.dictLookup
  by_cases h : q.1 = k'
  · rw [List.find?_cons_of_pos _ (by simpa using h), if_pos h]
    rfl
  · rw [List.find?_cons_of_neg _ (by simpa using h), if_neg h]

theorem dictExtendAt_cons (q : String × List String) (t : List (String × List String))
    (k : String) (v : List String) :
    Magic.dictExtendAt (q :: t) k v =
      (if q.1 = k then (q.1, q.2 ++ v) else q) :: Magic.dictExtendAt t k v := by
  simp only [Magic.dictExtendAt, List.map_cons]
  congr 1
  by_cases h : q.1 = k
  · simp [h]
  · simp [h]

theorem dictLookup_extendAt (d : List (String × List String)) (k k' : String)
    (v : List String) :
    Magic.dictLookup (Magic.dictExtendAt d k v) k' =
      if k' = k then (Magic.dictLookup d k').map (fun w => w ++ v)
      else Magic.dictLookup d k' := by
  induction d with
  | nil =>
    by_cases hk : k' = k <;> simp [Magic.dictLookup, Magic.dictExtendAt, hk]
  | cons q t ih =>
    rw [dictExtendAt_cons, dictLookup_cons, dictLookup_cons]
    by_cases hq : q.1 = k
    · by_cases hk : k' = k
      · subst hk
        simp [hq]
      · have hq' : ¬ q.1 = k' := by
          rw [hq]
          exact fun h => hk h.symm
        have hkk' : ¬ k = k' := fun h => hk h.symm
        simp [hq, hq', hk, hkk', ih]
    · by_cases hk : k' = k
      · subst hk
        simp [hq, ih]
      · by_cases hq2 : q.1 = k'
        · simp [hq, hq2, hk]
        · simp [hq, hq2, hk, ih]

theorem dictLookup_append (d e : List (String × List String)) (k' : String) :
    Magic.dictLookup (d ++ e) k' =
      match Magic.dictLookup d k' with
      | some v => some v
      | none => Magic.dictLookup e k' := by
  induction d with
  | nil => simp [Magic.dictLookup]
  | cons q t ih =>
    rw [List.cons_append, dictLookup_cons, dictLookup_cons]
    by_cases h : q.1 = k'
    · simp [h]
    · simp [h, ih]

theorem dictAny_iff_isSome (d : List (String × List String)) (k : String) :
    d.any (fun p => p.1 == k) = true ↔ (Magic.dictLookup d k).isSome := by
  induction d with
  | nil => simp [Magic.dictLookup]
  | cons q t ih =>
    rw [List.any_cons, dictLookup_cons]
    by_cases h : q.1 = k
    · simp [h]
    · simp [h, ih]

theorem dictLookup_insertNew (d : List (String × List String)) (k k' : String) :
    Magic.dictLookup (Magic.dictInsertNew d k) k' =
      if k' = k then some ((Magic.dictLookup d k).getD [])
      else Magic.dictLookup d k' := by
  unfold Magic.dictInsertNew
  by_cases hmem : d.any (fun p => p.1 == k) = true
  · rw [if_pos hmem]
    rcases Option.isSome_iff_exists.mp ((dictAny_iff_isSome d k).mp hmem) with ⟨v, hv⟩
    by_cases hk : k' = k
    · subst hk
      rw [if_pos rfl, hv]
      rfl
    · rw [if_neg hk]
  · rw [if_neg hmem]
    have hnone : Magic.dictLookup d k = none := by
      cases ho : Magic.dictLookup d k with
      | none => rfl
      | some v => exact absurd ((dictAny_iff_isSome d k).mpr (by simp [ho])) hmem
    rw [dictLookup_append]
    by_cases hk : k' = k
    · subst hk
      rw [if_pos rfl, hnone, dictLookup_cons]
      simp
    · rw [if_neg hk]
      cases ho : Magic.dictLookup d k' with
      | some v => rfl
      | none =>
        rw [dictLookup_cons, if_neg (fun h => hk h.symm)]
        simp [Magic.dictLookup]

/-! ### Characterisation of `search_for_words` -/

theorem dictLookup_initFold (s : List String) :
    ∀ (d : List (String × List String)) (k : String),
      Magic.dictLookup (s.foldl (fun d kw => Magic.dictInsertNew d (pyStrip kw)) d) k =
        if s.any (fun kw => pyStrip kw == k) then some ((Magic.dictLookup d k).getD [])
        else Magic.dictLookup d k := by
  induction s with
  | nil => simp
  | cons kw s ih =>
    intro d k
    rw [List.foldl_cons, ih, dictLookup_insertNew, List.any_cons]
    by_cases h : pyStrip kw = k
    · subst h
      simp [ite_self]
    · have hknk : ¬ k = pyStrip kw := fun he => h he.symm
      have hb : (pyStrip kw == k) = false := by simpa using h
      rw [hb, Bool.false_or]
      simp [hknk]

theorem dictLookup_initDict (ks : List String) (k : String) :
    Magic.dictLookup (Magic.initDict ks) k =
      if ks.any (fun kw => pyStrip kw == k) then some [] else none := by
  unfold Magic.initDict
  rw [dictLookup_initFold]
  simp [Magic.dictLookup]

theorem sww_foldlM (t : String) (s : List String) :
    ∀ (d m : List (String × List String)),
      s.foldlM (Magic.swwStep t) d = some m →
      ∀ k, Magic.dictLookup m k =
        (Magic.dictLookup d k).map (fun w => w ++ swwFun s t k) := by
  induction s with
  | nil =>
    intro d m h k
    rw [List.foldlM_nil] at h
    cases h
    simp [swwFun]
  | cons kw s ih =>
    intro d m h k
    rw [List.foldlM_cons] at h
    rcases Option.bind_eq_some.mp h with ⟨d₁, hstep, hrest⟩
    unfold Magic.swwStep at hstep
    rcases Option.bind_eq_some.mp hstep with ⟨ms, hms, hpure⟩
    have hd₁ : d₁ = Magic.dictExtendAt d (pyStrip kw) ms := by
      cases hpure
      rfl
    subst hd₁
    rw [ih _ _ hrest k, dictLookup_extendAt]
    have hfun : swwFun (kw :: s) t k =
        (if pyStrip kw == k then ms ++ swwFun s t k else swwFun s t k) := by
      unfold swwFun
      rw [List.filter_cons]
      by_cases hk : pyStrip kw = k
      · have hb : (pyStrip kw == k) = true := by simpa using hk
        rw [hb]
        simp [hms]
      · have hb : (pyStrip kw == k) = false := by simpa using hk
        rw [hb]
        simp
    rw [hfun]
    by_cases hk : k = pyStrip kw
    · have hb : (pyStrip kw == k) = true := by simpa using hk.symm
      rw [if_pos hk, hb, Option.map_map]
      cases Magic.dictLookup d k <;> simp
    · have hb : (pyStrip kw == k) = false := by
        simp only [beq_eq_false_iff_ne]
        exact fun he => hk he.symm
      rw [if_neg hk, hb]
      simp

theorem sww_lookup {ks : List String} {t : String} {m : List (String × List String)}
    (h : Magic.search_for_words ks t = some m) (k : String) :
    Magic.dictLookup m k =
      if ks.any (fun kw => pyStrip kw == k) then some (swwFun ks t k) else none := by
  unfold Magic.search_for_words at h
  have hfold := sww_foldlM t ks _ m h k
  rw [dictLookup_initDict] at hfold
  by_cases hany : ks.any (fun kw => pyStrip kw == k) = true
  · rw [hany] at hfold ⊢
    simpa using hfold
  · simp only [Bool.not_eq_true] at hany
    rw [hany] at hfold ⊢
    simpa using hfold

theorem sww_lookup_isSome {ks : List String} {t : String}
    {m : List (String × List String)} (h : Magic.search_for_words ks t = some m)
    {kw : String} (hkw : kw ∈ ks) :
    (Magic.dictLookup m (pyStrip kw)).isSome := by
  rw [sww_lookup h (pyStrip kw), if_pos]
  · rfl
  · exact List.any_eq_true.mpr ⟨kw, hkw, by simp⟩

theorem swwFold_none (t : String) (kw : String)
    (hnone : Magic.matchesForKeyword kw t = none) :
    ∀ (s : List String) (d : List (String × List String)), kw ∈ s →
      s.foldlM (Magic.swwStep t) d = none := by
  intro s
  induction s with
  | nil => intro d h; cases h
  | cons a s ih =>
    intro d hmem
    rw [List.foldlM_cons]
    cases hstep : Magic.swwStep t d a with
    | none => rfl
    | some d₁ =>
      have ha : a ≠ kw := by
        intro he
        subst he
        unfold Magic.swwStep at hstep
        rw [hnone] at hstep
        cases hstep
      have hmem' : kw ∈ s := by
        rcases List.mem_cons.mp hmem with he | hs
        · exact absurd he.symm ha
        · exact hs
      exact ih d₁ hmem'

theorem sww_none_of_matches_none {kw : String} {ks : List String} {t : String}
    (hmem : kw ∈ ks) (hnone : Magic.matchesForKeyword kw t = none) :
    Magic.search_for_words ks t = none := by
  unfold Magic.search_for_words
  exact swwFold_none t kw hnone ks _ hmem

theorem sww_matches_isSome {ks : List String} {t : String}
    {m : List (String × List String)} (h : Magic.search_for_words ks t = some m)
    {kw : String} (hkw : kw ∈ ks) :
    ∃ v, Magic.matchesForKeyword kw t = some v := by
  cases hmf : Magic.matchesForKeyword kw t with
  | none => rw [sww_none_of_matches_none hkw hmf] at h; cases h
  | some v => exact ⟨v, rfl⟩

/-! ### Characterisation of `compare_and_mapping` -/

theorem bind_some_eq {α β : Type} (a : α) (f : α → Option β) :
    ((some a : Option α) >>= f) = f a := rfl

theorem cm_foldlM (m1 m2 : List (String × List String)) (tbl : List (String × String))
    (ks : List String) :
    ∀ (st : Magic.CMState),
      (∀ kw ∈ ks, (Magic.dictLookup m1 (pyStrip kw)).isSome ∧
        (Magic.dictLookup m2 (pyStrip kw)).isSome) →
      ks.foldlM (Magic.cmStep m1 m2 tbl) st =
        some ⟨st.df ++ dfAdds m1 m2 ks,
              st.changed ++ changedKws m1 m2 ks,
              st.mapped ++ mappedAdds m1 m2 tbl st.changed ks⟩ := by
  induction ks with
  | nil =>
    intro st h
    simp [dfAdds, changedKws, mappedAdds]
  | cons kw ks ih =>
    intro st h
    obtain ⟨h1, h2⟩ := h kw (List.mem_cons_self kw ks)
    rcases Option.isSome_iff_exists.mp h1 with ⟨v1, hv1⟩
    rcases Option.isSome_iff_exists.mp h2 with ⟨v2, hv2⟩
    have he1 : entryOf m1 kw = v1 := by simp [entryOf, hv1]
    have he2 : entryOf m2 kw = v2 := by simp [entryOf, hv2]
    rw [List.foldlM_cons]
    have hstep : Magic.cmStep m1 m2 tbl st kw =
        some ⟨st.df ++ tripleCells m1 m2 kw,
              st.changed ++ changedAdd m1 m2 kw,
              st.mapped ++ (st.changed ++ changedAdd m1 m2 kw).map
                (Magic.mapFeature tbl)⟩ := by
      unfold Magic.cmStep
      rw [hv1, hv2]
      simp only [Option.some_bind, tripleCells, changedAdd, he1, he2]
      by_cases hc : Magic.compare v1 v2 = true
      · simp [hc]
      · simp only [Bool.not_eq_true] at hc
        simp [hc]
    rw [hstep]
    simp only [bind_some_eq]
    rw [ih _ (fun kw' hm => h kw' (List.mem_cons_of_mem kw hm))]
    simp only [dfAdds, changedKws, mappedAdds, List.flatMap_cons, List.append_assoc]

theorem mappedAdds_mem (m1 m2 : List (String × List String))
    (tbl : List (String × String)) (ks : List String) :
    ks ≠ [] →
    ∀ (c0 : List String) (a : String),
      (a ∈ mappedAdds m1 m2 tbl c0 ks ↔
        a ∈ (c0 ++ changedKws m1 m2 ks).map (Magic.mapFeature tbl)) := by
  induction ks with
  | nil => intro h; cases h rfl
  | cons kw ks ih =>
    intro _ c0 a
    by_cases hk : ks = []
    · subst hk
      simp [mappedAdds, changedKws]
    · rw [mappedAdds, List.mem_append, ih hk (c0 ++ changedAdd m1 m2 kw) a]
      simp only [changedKws, List.flatMap_cons, List.append_assoc]
      constructor
      · rintro (h | h)
        · rcases List.mem_map.mp h with ⟨x, hx, hfx⟩
          refine List.mem_map.mpr ⟨x, ?_, hfx⟩
          rcases List.mem_append.mp hx with h1 | h1
          · exact List.mem_append.mpr (Or.inl h1)
          · exact List.mem_append.mpr (Or.inr (List.mem_append.mpr (Or.inl h1)))
        · exact h
      · exact fun h => Or.inr h

theorem cm_eq (m1 m2 : List (String × List String)) (ks : List String)
    (tbl : List (String × String))
    (h : ∀ kw ∈ ks, (Magic.dictLookup m1 (pyStrip kw)).isSome ∧
      (Magic.dictLookup m2 (pyStrip kw)).isSome) :
    Magic.compare_and_mapping m1 m2 ks tbl = some (cmSpec m1 m2 ks tbl) := by
  unfold Magic.compare_and_mapping
  rw [cm_foldlM m1 m2 tbl ks ⟨[], [], []⟩ h]
  simp only [bind_some_eq]
  have hmap : sortDedup (mappedAdds m1 m2 tbl [] ks) =
      sortDedup ((changedKws m1 m2 ks).map (Magic.mapFeature tbl)) := by
    by_cases hk : ks = []
    · subst hk
      simp [mappedAdds, changedKws]
    · apply sortDedup_congr
      intro a
      rw [mappedAdds_mem m1 m2 tbl ks hk [] a, List.nil_append]
  simp only [List.nil_append, hmap, cmSpec]
  rfl

theorem cm_some_imp_keys (m1 m2 : List (String × List String)) (ks : List String)
    (tbl : List (String × String)) (r : List Cell)
    (h : Magic.compare_and_mapping m1 m2 ks tbl = some r) :
    ∀ kw ∈ ks, (Magic.dictLookup m1 (pyStrip kw)).isSome ∧
      (Magic.dictLookup m2 (pyStrip kw)).isSome := by
  unfold Magic.compare_and_mapping at h
  rcases Option.bind_eq_some.mp h with ⟨st, hst, _⟩
  clear h
  revert hst
  generalize (⟨[], [], []⟩ : Magic.CMState) = st0
  revert st0
  induction ks with
  | nil => intro st0 _ kw hkw; cases hkw
  | cons a ks ih =>
    intro st0 hst kw hkw
    rw [List.foldlM_cons] at hst
    rcases Option.bind_eq_some.mp hst with ⟨st1, hstep, hrest⟩
    unfold Magic.cmStep at hstep
    rcases Option.bind_eq_some.mp hstep with ⟨v1, hv1, hstep2⟩
    rcases Option.bind_eq_some.mp hstep2 with ⟨v2, hv2, _⟩
    rcases List.mem_cons.mp hkw with he | hm
    · subst he
      exact ⟨by simp [hv1], by simp [hv2]⟩
    · exact ih st1 hrest kw hm

theorem cm_some_eq_cmSpec (m1 m2 : List (String × List String)) (ks : List String)
    (tbl : List (String × String)) (r : List Cell)
    (h : Magic.compare_and_mapping m1 m2 ks tbl = some r) :
    r = cmSpec m1 m2 ks tbl := by
  have := cm_eq m1 m2 ks tbl (cm_some_imp_keys m1 m2 ks tbl r h)
  rw [h] at this
  exact Option.some_injective _ this

/-! ### Characterisation of `matchesForKeyword` and the scheduler -/

theorem matchesFor_substring (kw t : String) (h : startsUnderscore kw = false) :
    Magic.matchesForKeyword kw t =
      some (if ((pySplitLines t).filterMap (fun line =>
          if strContains (pyLower (pyStrip line)) (pyLower (pyStrip kw)) then
            some (pyStrip line) else none)) = [] then [""]
        else (pySplitLines t).filterMap (fun line =>
          if strContains (pyLower (pyStrip line)) (pyLower (pyStrip kw)) then
            some (pyStrip line) else none)) := by
  unfold Magic.matchesForKeyword
  rw [h]
  simp

theorem matchesFor_positional (kw t : String) (n : Int)
    (hu : startsUnderscore kw = true)
    (hn : pyInt? (removeUnderscore kw) = some n) :
    Magic.matchesForKeyword kw t =
      (pyIndex (pySplitLines t) (n - 1)).map (fun line => [line]) := by
  unfold Magic.matchesForKeyword
  rw [hu]
  simp only [if_true]
  cases hidx : pyIndex (pySplitLines t) (n - 1) with
  | none => simp [hn, hidx]
  | some line => simp [hn, hidx]

theorem filter_strip_nodup {ks : List String} (hnd : (ks.map pyStrip).Nodup)
    {kw : String} (hkw : kw ∈ ks) :
    ks.filter (fun x => pyStrip x == pyStrip kw) = [kw] := by
  induction ks with
  | nil => cases hkw
  | cons a s ih =>
    rw [List.map_cons, List.nodup_cons] at hnd
    obtain ⟨hna, hns⟩ := hnd
    rcases List.mem_cons.mp hkw with he | hm
    · have hnil : s.filter (fun x => pyStrip x == pyStrip kw) = [] := by
        rw [List.filter_eq_nil_iff]
        intro x hx hbx
        rw [beq_iff_eq, he] at hbx
        exact hna (hbx ▸ List.mem_map_of_mem pyStrip hx)
      rw [List.filter_cons_of_pos (by simp [he]), hnil, he]
    · have hne : pyStrip a ≠ pyStrip kw := by
        intro he
        exact hna (he ▸ List.mem_map_of_mem pyStrip hm)
      rw [List.filter_cons_of_neg (by simp [hne])]
      exact ih hns hm

theorem sww_lookup_distinct {ks : List String} {t : String}
    {m : List (String × List String)} (hnd : (ks.map pyStrip).Nodup)
    (h : Magic.search_for_words ks t = some m) {kw : String} (hkw : kw ∈ ks) :
    Magic.dictLookup m (pyStrip kw) = Magic.matchesForKeyword kw t := by
  rw [sww_lookup h, if_pos (List.any_eq_true.mpr ⟨kw, hkw, by simp⟩)]
  unfold swwFun
  rw [filter_strip_nodup hnd hkw]
  rcases sww_matches_isSome h hkw with ⟨v, hv⟩
  simp [hv]

theorem chunkListAux_flatten {α : Type} (n : Nat) (hn : 0 < n) :
    ∀ (fuel : Nat) (xs : List α), xs.length ≤ fuel →
      (Magic.chunkListAux n fuel xs).flatMap (fun b => b) = xs := by
  intro fuel
  induction fuel with
  | zero =>
    intro xs hlen
    cases xs with
    | nil => rfl
    | cons x rest => simp at hlen
  | succ fuel ih =>
    intro xs hlen
    cases xs with
    | nil => rfl
    | cons x rest =>
      rw [Magic.chunkListAux, List.flatMap_cons, ih ((x :: rest).drop n)
        (by simp only [List.length_drop, List.length_cons] at hlen ⊢; omega),
        List.take_append_drop]

theorem chunkList_flatten {α : Type} (n : Nat) (hn : 0 < n) (xs : List α) :
    (Magic.chunkList n xs).flatMap (fun b => b) = xs :=
  chunkListAux_flatten n hn xs.length xs (le_refl _)

theorem scheduler_foldl {α β : Type} (f : α → β) (L : List (List α)) :
    ∀ acc, L.foldl (fun acc batch => acc ++ batch.map f) acc =
      acc ++ L.flatMap (fun b => b.map f) := by
  induction L with
  | nil => intro acc; simp
  | cons b L ih =>
    intro acc
    rw [List.foldl_cons, ih, List.flatMap_cons, List.append_assoc]

theorem flatMap_map_comm {α β : Type} (f : α → β) (L : List (List α)) :
    L.flatMap (fun b => b.map f) = (L.flatMap (fun b => b)).map f := by
  induction L with
  | nil => rfl
  | cons b L ih => rw [List.flatMap_cons, List.flatMap_cons, List.map_append, ih]

theorem scheduler_eq_map {α β : Type} (f : α → β) (n : Nat) (hn : 0 < n)
    (xs : List α) : Magic.scheduler f n xs = xs.map f := by
  unfold Magic.scheduler
  rw [scheduler_foldl, List.nil_append, flatMap_map_comm, chunkList_flatten n hn xs]

/-! ### Claims -/

/-- C2 counterexample: the claim says `equal` strips all whitespace, but
`compare` only removes the space character. With a tab inside an element,
`compare ["a\tb"] ["ab"]` is `false`, although the whitespace-stripped
multisets (the claim's criterion) coincide. -/
theorem c2_counterexample :
    Magic.compare ["a\tb"] ["ab"] = false ∧
      (↑(["a\tb"].map stripWhitespaceSpec) : Multiset String) =
        ↑(["ab"].map stripWhitespaceSpec) := by
  exact ⟨by decide, by decide⟩

/-- C2 (amended): `compare(a, b)` is true exactly when the multisets of
the space-stripped (U+0020 only, not all whitespace) elements of `a` and
`b` coincide: space-insensitive, order-insensitive, case-sensitive. -/
theorem c2_set_comparator (a b : List String) :
    Magic.compare a b = true ↔
      (↑(a.map stripSpaces) : Multiset String) = ↑(b.map stripSpaces) :=
  compare_eq_true_iff a b

/-- C9 counterexample: `equal` is not invariant under insertion of
whitespace inside an element: inserting a tab into "ab" flips the result. -/
theorem c9_counterexample :
    Magic.compare ["ab"] ["ab"] = true ∧ Magic.compare ["a\tb"] ["ab"] = false := by
  exact ⟨by decide, by decide⟩

/-- C9 (amended): `compare` is symmetric, reflexive, and invariant under
permutation of either input and under insertion/removal of space
characters (U+0020; not arbitrary whitespace) inside elements. -/
theorem c9_comparator_algebra :
    (∀ a b : List String, Magic.compare a b = Magic.compare b a) ∧
    (∀ a : List String, Magic.compare a a = true) ∧
    (∀ a a' b b' : List String,
      (a.map stripSpaces).Perm (a'.map stripSpaces) →
      (b.map stripSpaces).Perm (b'.map stripSpaces) →
      Magic.compare a b = Magic.compare a' b') := by
  refine ⟨?_, ?_, ?_⟩
  · intro a b
    unfold Magic.compare
    exact decide_eq_decide.mpr eq_comm
  · intro a
    unfold Magic.compare
    simp
  · intro a a' b b' ha hb
    rw [Bool.eq_iff_iff, compare_eq_true_iff, compare_eq_true_iff,
      Multiset.coe_eq_coe.mpr ha, Multiset.coe_eq_coe.mpr hb]

/-- C9 witness: the invariance applied at a permutation and a space
reflow of concrete inputs, plus symmetry and reflexivity instances. -/
theorem c9_witness :
    ((["x y", "z"].map stripSpaces).Perm (["z", "xy"].map stripSpaces)) ∧
    ((["q"].map stripSpaces).Perm (["q"].map stripSpaces)) ∧
    Magic.compare ["x y", "z"] ["q"] = Magic.compare ["z", "xy"] ["q"] ∧
    Magic.compare ["u"] ["v"] = Magic.compare ["v"] ["u"] ∧
    Magic.compare ["w"] ["w"] = true :=
  ⟨by decide, by decide,
   c9_comparator_algebra.2.2 ["x y", "z"] ["z", "xy"] ["q"] ["q"] (by decide) (by decide),
   c9_comparator_algebra.1 ["u"] ["v"],
   c9_comparator_algebra.2.1 ["w"]⟩

/-- C7: the Batch Scheduler (the batch loop modelled with the
order-preserving `executor.map` semantics) produces exactly the map of the
evaluator over the input pairs: one row per pair, equal length, i-th row
from the i-th pair. -/
theorem c7_scheduler {α β : Type} (eval : α → β) (n : Nat) (hn : 0 < n)
    (pairs : List α) :
    Magic.scheduler eval n pairs = pairs.map eval ∧
    (Magic.scheduler eval n pairs).length = pairs.length ∧
    ∀ i : Nat, (Magic.scheduler eval n pairs)[i]? = pairs[i]?.map eval := by
  have h := scheduler_eq_map eval n hn pairs
  refine ⟨h, ?_, ?_⟩
  · rw [h, List.length_map]
  · intro i
    rw [h, List.getElem?_map]

/-- C7 witness: the scheduler at the source's batch size 250 on a concrete
input list. -/
theorem c7_witness :
    Magic.scheduler (fun x : Nat => x + 1) 250 [1, 2, 3] = [2, 3, 4] ∧
    (Magic.scheduler (fun x : Nat => x + 1) 250 [1, 2, 3]).length = 3 :=
  ⟨((c7_scheduler (fun x => x + 1) 250 (by decide) [1, 2, 3]).1).trans (by decide),
   ((c7_scheduler (fun x => x + 1) 250 (by decide) [1, 2, 3]).2.1).trans (by decide)⟩

/-- C8: for a positional keyword parsing to a 1-based index `n ≥ 1`, if the
split text has at least `n` lines the match is exactly the single line at
index `n - 1`, regardless of content; if it has fewer than `n` lines the
match raises (`none`), and the whole `search_for_words` call fails with it
(propagating to the pair-level error guard). -/
theorem c8_positional (kw t : String) (n : Int)
    (hu : startsUnderscore kw = true)
    (hn : pyInt? (removeUnderscore kw) = some n) (h1 : 1 ≤ n) :
    (∀ line, (pySplitLines t)[(n - 1).toNat]? = some line →
      Magic.matchesForKeyword kw t = some [line]) ∧
    (((pySplitLines t).length : Int) < n →
      Magic.matchesForKeyword kw t = none ∧
      ∀ ks, kw ∈ ks → Magic.search_for_words ks t = none) := by
  have hpos := matchesFor_positional kw t n hu hn
  have hidx : pyIndex (pySplitLines t) (n - 1) = (pySplitLines t)[(n - 1).toNat]? := by
    unfold pyIndex
    rw [if_pos (by omega)]
  constructor
  · intro line hline
    rw [hpos, hidx, hline]
    rfl
  · intro hlen
    have hnone : (pySplitLines t)[(n - 1).toNat]? = none := by
      rw [List.getElem?_eq_none_iff]
      omega
    have hmf : Magic.matchesForKeyword kw t = none := by
      rw [hpos, hidx, hnone]
      rfl
    exact ⟨hmf, fun ks hks => sww_none_of_matches_none hks hmf⟩

/-- C8 witness: `"_3"` selects the third line of a three-line text and
faults on a two-line text, taking `search_for_words` down with it. -/
theorem c8_witness :
    Magic.matchesForKeyword "_3" "a\nb\nc" = some ["c"] ∧
    Magic.search_for_words ["_3"] "a\nb" = none :=
  ⟨(c8_positional "_3" "a\nb\nc" 3 (by decide) (by decide) (by decide)).1 "c" (by decide),
   ((c8_positional "_3" "a\nb" 3 (by decide) (by decide) (by decide)).2 (by decide)).2
     ["_3"] (by decide)⟩

/-- C10 (implicit): the positional keyword `"_0"` is not an out-of-range
error: `int("0") - 1 = -1` selects the last line under Python negative
indexing, so `search_for_words` succeeds with the text's last line. -/
theorem c10_zero_index (t : String) (l : String)
    (hl : (pySplitLines t).getLast? = some l) :
    Magic.search_for_words ["_0"] t = some [("_0", [l])] := by
  have hlen : 1 ≤ (pySplitLines t).length := by
    cases hsp : pySplitLines t with
    | nil => rw [hsp] at hl; cases hl
    | cons a s => simp
  have hmf : Magic.matchesForKeyword "_0" t = some [l] := by
    rw [matchesFor_positional "_0" t 0 (by decide) (by decide)]
    have hidx : pyIndex (pySplitLines t) (0 - 1) = some l := by
      unfold pyIndex
      rw [if_neg (by omega), if_pos (by omega)]
      have ht : (((pySplitLines t).length : Int) + (0 - 1)).toNat =
          (pySplitLines t).length - 1 := by omega
      rw [ht, ← List.getLast?_eq_getElem?]
      exact hl
    rw [hidx]
    rfl
  have hinit : Magic.initDict ["_0"] = [("_0", [])] := by decide
  unfold Magic.search_for_words
  rw [hinit, List.foldlM_cons]
  unfold Magic.swwStep
  rw [hmf]
  simp only [bind_some_eq, Option.some_bind, List.foldlM_nil]
  have hstrip : pyStrip "_0" = "_0" := by decide
  rw [hstrip]
  simp [Magic.dictExtendAt]

/-- C10 witness: `"_0"` on the two-line text `"x\ny"` yields its last
line `"y"`. -/
theorem c10_witness : Magic.search_for_words ["_0"] "x\ny" = some [("_0", ["y"])] :=
  c10_zero_index "x\ny" "y" (by decide)

/-- C3 counterexample: with the duplicate keyword list `["a", "a"]` on the
one-line text `" b a "`, the single entry under key `"a"` is
`["b a", "b a"]`: the one matching line appears twice (once per keyword
occurrence) and is stored stripped — not "exactly the lines whose
lowercased, trimmed form contains the keyword, in document order". -/
theorem c3_counterexample :
    Magic.search_for_words ["a", "a"] " b a " = some [("a", ["b a", "b a"])] ∧
    (pySplitLines " b a ").length = 1 := by
  exact ⟨by decide, by decide⟩

/-- C3 (amended): when the stripped keywords are pairwise distinct and
`search_for_words` succeeds, every keyword has an entry under its stripped
form, and a substring keyword's entry is exactly the trimmed forms of the
lines whose trimmed, lowercased form contains the trimmed, lowercased
keyword, in document order without de-duplication — with `[""]` when no
line matches. -/
theorem c3_match_entries (ks : List String) (t : String)
    (m : List (String × List String)) (hnd : (ks.map pyStrip).Nodup)
    (h : Magic.search_for_words ks t = some m) :
    (∀ kw ∈ ks, (Magic.dictLookup m (pyStrip kw)).isSome) ∧
    (∀ kw ∈ ks, startsUnderscore kw = false →
      Magic.dictLookup m (pyStrip kw) =
        some (if ((pySplitLines t).filterMap (fun line =>
            if strContains (pyLower (pyStrip line)) (pyLower (pyStrip kw)) then
              some (pyStrip line) else none)) = [] then [""]
          else (pySplitLines t).filterMap (fun line =>
            if strContains (pyLower (pyStrip line)) (pyLower (pyStrip kw)) then
              some (pyStrip line) else none))) := by
  constructor
  · intro kw hkw
    exact sww_lookup_isSome h hkw
  · intro kw hkw hsub
    rw [sww_lookup_distinct hnd h hkw, matchesFor_substring kw t hsub]

/-- C3 witness: the keyword `"voltage"` on a two-line text, applied
through the amended theorem. -/
theorem c3_witness :
    Magic.dictLookup [("voltage", ["voltage: 5v"])] (pyStrip "voltage") =
      some ["voltage: 5v"] :=
  (((c3_match_entries ["voltage"] "voltage: 5v\nother"
      [("voltage", ["voltage: 5v"])] (by decide) (by decide)).2 "voltage"
      (by decide) (by decide)).trans (by decide))

/-- C6: the mapped-feature cell of a successful comparison row is the
deduplicated, lexicographically sorted list of the mapped names of the
changed keywords, where a changed keyword maps to the first table row
whose lowercased-trimmed keyword matches (emitting the lowercased-trimmed
feature) and to itself (lowercased, trimmed) on a table miss. -/
theorem c6_feature_mapper (m1 m2 : List (String × List String)) (ks : List String)
    (tbl : List (String × String)) (r : List Cell)
    (h : Magic.compare_and_mapping m1 m2 ks tbl = some r) :
    r[2]? = some (Cell.str (pyJoin ", "
      (sortDedup ((changedKws m1 m2 ks).map (Magic.mapFeature tbl))))) ∧
    (∀ x, x ∈ sortDedup ((changedKws m1 m2 ks).map (Magic.mapFeature tbl)) ↔
      ∃ cf ∈ changedKws m1 m2 ks, Magic.mapFeature tbl cf = x) ∧
    (sortDedup ((changedKws m1 m2 ks).map (Magic.mapFeature tbl))).Nodup ∧
    List.Sorted strLE (sortDedup ((changedKws m1 m2 ks).map (Magic.mapFeature tbl))) ∧
    (∀ cf, tbl.find? (fun q => pyStrip (pyLower cf) == pyStrip (pyLower q.1)) = none →
      Magic.mapFeature tbl cf = pyStrip (pyLower cf)) ∧
    (∀ cf p, tbl.find? (fun q => pyStrip (pyLower cf) == pyStrip (pyLower q.1)) = some p →
      Magic.mapFeature tbl cf = pyStrip (pyLower p.2)) := by
  have hr := cm_some_eq_cmSpec m1 m2 ks tbl r h
  subst hr
  refine ⟨by simp [cmSpec], ?_, sortDedup_nodup _, sortDedup_sorted _, ?_, ?_⟩
  · intro x
    rw [mem_sortDedup, List.mem_map]
  · intro cf hnone
    unfold Magic.mapFeature
    rw [hnone]
  · intro cf p hp
    unfold Magic.mapFeature
    rw [hp]

/-- C6 witness: one changed keyword `"k"` whose table row `("K", "Feat")`
maps it to `"feat"`. -/
theorem c6_witness :
    ([Cell.str "Yes", Cell.str "k", Cell.str "feat", Cell.str "x", Cell.str "y",
      Cell.bool false] : List Cell)[2]? = some (Cell.str "feat") :=
  ((c6_feature_mapper [("k", ["x"])] [("k", ["y"])] ["k"] [("K", "Feat")]
      [Cell.str "Yes", Cell.str "k", Cell.str "feat", Cell.str "x", Cell.str "y",
       Cell.bool false] (by decide)).1).trans (by decide)

/-- C4: whenever any step of a single pair evaluation fails (page-count
I/O fault, extraction fault, or a `search_for_words` fault from a
malformed or out-of-range positional keyword), `magic_main` returns the
row of the pair identifiers plus "Error in reading". The Lean model is a
total function, mirroring that the Python `except` never re-raises: no
exception reaches the caller. -/
theorem c4_error_row (r : Magic.Reader) (links : String × String)
    (ks : List String) (vc : String) (tbl : List (String × String))
    (h : stepFails r links ks) :
    Magic.magic_main r links ks vc tbl =
      [Cell.str links.1, Cell.str links.2, Cell.str (Magic.oldLatest links),
       Cell.str "Error in reading"] := by
  unfold Magic.magic_main
  rcases h with h1 | h1 | ⟨n1, n2, hn1, hn2, hle1, hle2, hrest⟩
  · rw [h1]
  · rw [h1]
    cases r.pageCount links.1 <;> rfl
  · have hguard : (decide (n2 > 200) || decide (n1 > 200)) = false := by
      simp only [Bool.or_eq_false_iff, decide_eq_false_iff_not, not_lt]
      omega
    simp only [hn1, hn2, hguard, Bool.false_eq_true, if_false]
    rcases hrest with h2 | h2 | ⟨l1, l2, hl1, hl2, h3⟩
    · simp [h2]
    · cases hx : r.extractLines links.1 with
      | none => simp [hx]
      | some l1 => simp [hx, h2]
    · rcases h3 with h4 | h4
      · simp [hl1, hl2, h4]
      · cases hs : Magic.search_for_words ks (pyJoin "\n" (l1.map pyLower)) with
        | none => simp [hl1, hl2, hs]
        | some m1 => simp [hl1, hl2, hs, h4]

/-- C4 witness: a reader whose page-count oracle faults yields the
"Error in reading" row. -/
theorem c4_witness :
    stepFails failReader ("o", "l") [] ∧
    Magic.magic_main failReader ("o", "l") [] "V" [] =
      [Cell.str "o", Cell.str "l", Cell.str "ol", Cell.str "Error in reading"] :=
  ⟨Or.inl rfl,
   (c4_error_row failReader ("o", "l") [] "V" [] (Or.inl rfl)).trans (by decide)⟩

/-- C5 counterexample: both documents of the pair have 250 pages — above
the claim's ceiling of 200 — yet Magic_Special.py's evaluator (cited by
the claim) answers a guard row that additionally carries the vendor code
and a "Reject" marker, not a row of "only identifiers and the status";
its configured ceiling is 50, not 200. -/
theorem c5_counterexample :
    Special.magic_main sreaderPages250 ("o", "l") [] "V" [] [] =
      [Cell.str "o", Cell.str "l", Cell.str "ol", Cell.str "V", Cell.str "Reject",
       Cell.str "Page limit exceeded"] ∧
    Special.magic_main sreaderPages250 ("o", "l") [] "V" [] [] ≠
      [Cell.str "o", Cell.str "l", Cell.str "ol", Cell.str "Page limit exceeded"] := by
  exact ⟨by decide, by decide⟩

/-- C5 (amended): Magic.py's evaluator short-circuits when either page
count exceeds 200, returning exactly the three identifiers plus
"Page limit exceeded", for every extraction oracle (extraction is never
consulted); Magic_Special.py's evaluator short-circuits at its ceiling of
50 with a row that also carries the vendor code and "Reject", likewise
independently of its extraction and part-comparison oracles. -/
theorem c5_page_guard :
    (∀ (pc : String → Option Nat) (ex : String → Option (List String))
        (links : String × String) (ks : List String) (vc : String)
        (tbl : List (String × String)) (n1 n2 : Nat),
      pc links.1 = some n1 → pc links.2 = some n2 → (200 < n1 ∨ 200 < n2) →
      Magic.magic_main ⟨pc, ex⟩ links ks vc tbl =
        [Cell.str links.1, Cell.str links.2, Cell.str (Magic.oldLatest links),
         Cell.str "Page limit exceeded"]) ∧
    (∀ (pc : String → Option Nat) (ex : String → Option String)
        (cp : String × String → String → String → List String → String →
          Option (String × String × String))
        (links : String × String) (ks : List String) (vc : String)
        (pk : List String) (tbl : List (String × String)) (n1 n2 : Nat),
      pc links.1 = some n1 → pc links.2 = some n2 → (50 < n1 ∨ 50 < n2) →
      Special.magic_main ⟨pc, ex, cp⟩ links ks vc pk tbl =
        [Cell.str links.1, Cell.str links.2, Cell.str (Special.oldLatest links),
         Cell.str vc, Cell.str "Reject", Cell.str "Page limit exceeded"]) := by
  constructor
  · intro pc ex links ks vc tbl n1 n2 hn1 hn2 hgt
    have hguard : (decide (n2 > 200) || decide (n1 > 200)) = true := by
      rcases hgt with h | h <;> simp <;> omega
    unfold Magic.magic_main
    simp only [hn1, hn2, hguard, if_true]
  · intro pc ex cp links ks vc pk tbl n1 n2 hn1 hn2 hgt
    have hguard : (decide (n2 > 50) || decide (n1 > 50)) = true := by
      rcases hgt with h | h <;> simp <;> omega
    unfold Special.magic_main
    simp only [hn1, hn2, hguard, if_true]

/-- C5 witness: a 250-page pair under Magic.py's guard and a 60-page pair
under Magic_Special.py's (50-page) guard. -/
theorem c5_witness :
    Magic.magic_main ⟨fun _ => some 250, fun _ => none⟩ ("o", "l") [] "V" [] =
      [Cell.str "o", Cell.str "l", Cell.str "ol", Cell.str "Page limit exceeded"] ∧
    Special.magic_main ⟨fun _ => some 60, fun _ => none, fun _ _ _ _ _ => none⟩
        ("o", "l") [] "V" [] [] =
      [Cell.str "o", Cell.str "l", Cell.str "ol", Cell.str "V", Cell.str "Reject",
       Cell.str "Page limit exceeded"] :=
  ⟨(c5_page_guard.1 (fun _ => some 250) (fun _ => none) ("o", "l") [] "V" [] 250 250
      rfl rfl (Or.inl (by omega))).trans (by decide),
   (c5_page_guard.2 (fun _ => some 60) (fun _ => none) (fun _ _ _ _ _ => none)
      ("o", "l") [] "V" [] [] 60 60 rfl rfl (Or.inl (by omega))).trans (by decide)⟩

theorem changedAdd_ne_nil (m1 m2 : List (String × List String)) (kw : String) :
    changedAdd m1 m2 kw ≠ [] ↔
      Magic.compare (entryOf m1 kw) (entryOf m2 kw) = false := by
  unfold changedAdd
  by_cases h : Magic.compare (entryOf m1 kw) (entryOf m2 kw) = true
  · simp [h]
  · simp only [Bool.not_eq_true] at h
    simp [h]

theorem changedKws_ne_nil_iff (m1 m2 : List (String × List String))
    (ks : List String) :
    changedKws m1 m2 ks ≠ [] ↔
      ∃ kw ∈ ks, Magic.compare (entryOf m1 kw) (entryOf m2 kw) = false := by
  unfold changedKws
  rw [ne_eq, List.flatMap_eq_nil_iff]
  push_neg
  constructor
  · rintro ⟨kw, hkw, hne⟩
    exact ⟨kw, hkw, (changedAdd_ne_nil m1 m2 kw).mp hne⟩
  · rintro ⟨kw, hkw, hc⟩
    exact ⟨kw, hkw, (changedAdd_ne_nil m1 m2 kw).mpr hc⟩

/-- C1 counterexample: the claim says the changed-keyword list in the row
is sorted; with keywords `["b", "a"]` both changed, the row's
changed-features cell is `"b, a"` (keyword order), while sorted order
would be `"a, b"` (as the mapped-features cell shows). -/
theorem c1_counterexample :
    Magic.magic_main readerBA ("o", "l") ["b", "a"] "V" [] =
      [Cell.str "o", Cell.str "l", Cell.str "ol", Cell.str "V", Cell.str "7",
       Cell.str "7", Cell.str "Yes", Cell.str "b, a", Cell.str "a, b",
       Cell.str "b x", Cell.str "b y", Cell.bool false, Cell.str "a x",
       Cell.str "a y", Cell.bool false] := by
  decide

/-- C1 (amended): on the un-short-circuited path the assembled row is the
six identifier/length cells followed by the comparison cells; the change
flag is "Yes" iff at least one keyword's two match collections compare
unequal ("No" otherwise); the changed-keyword list cell is in
keyword-list order (not sorted); the mapped-feature list is sorted. -/
theorem c1_result_row (r : Magic.Reader) (links : String × String)
    (ks : List String) (vc : String) (tbl : List (String × String)) (n1 n2 : Nat)
    (lines1 lines2 : List String) (m1 m2 : List (String × List String))
    (hn1 : r.pageCount links.1 = some n1) (hn2 : r.pageCount links.2 = some n2)
    (hle1 : n1 ≤ 200) (hle2 : n2 ≤ 200)
    (hx1 : r.extractLines links.1 = some lines1)
    (hx2 : r.extractLines links.2 = some lines2)
    (hm1 : Magic.search_for_words ks (pyJoin "\n" (lines1.map pyLower)) = some m1)
    (hm2 : Magic.search_for_words ks (pyJoin "\n" (lines2.map pyLower)) = some m2) :
    Magic.magic_main r links ks vc tbl =
      Cell.str links.1 :: Cell.str links.2 :: Cell.str (Magic.oldLatest links) ::
        Cell.str vc ::
        Cell.str (toString (pyJoin "\n" (lines1.map pyLower)).length) ::
        Cell.str (toString (pyJoin "\n" (lines2.map pyLower)).length) ::
        cmSpec m1 m2 ks tbl ∧
    ((cmSpec m1 m2 ks tbl)[0]? = some (Cell.str "Yes") ↔
      ∃ kw ∈ ks, Magic.compare (entryOf m1 kw) (entryOf m2 kw) = false) ∧
    (cmSpec m1 m2 ks tbl)[1]? =
      some (Cell.str (pyJoin ", " (changedKws m1 m2 ks))) ∧
    List.Sorted strLE (sortDedup ((changedKws m1 m2 ks).map (Magic.mapFeature tbl))) := by
  have hkeys : ∀ kw ∈ ks, (Magic.dictLookup m1 (pyStrip kw)).isSome ∧
      (Magic.dictLookup m2 (pyStrip kw)).isSome :=
    fun kw hkw => ⟨sww_lookup_isSome hm1 hkw, sww_lookup_isSome hm2 hkw⟩
  have hcm := cm_eq m1 m2 ks tbl hkeys
  refine ⟨?_, ?_, ?_, sortDedup_sorted _⟩
  · have hguard : (decide (n2 > 200) || decide (n1 > 200)) = false := by
      simp only [Bool.or_eq_false_iff, decide_eq_false_iff_not, not_lt]
      omega
    unfold Magic.magic_main
    simp only [hn1, hn2, hguard, Bool.false_eq_true, if_false, hx1, hx2, hm1, hm2, hcm]
  · unfold cmSpec
    simp only [List.getElem?_cons_zero]
    constructor
    · intro h
      by_cases hc : changedKws m1 m2 ks = []
      · rw [hc] at h
        simp at h
      · exact (changedKws_ne_nil_iff m1 m2 ks).mp hc
    · intro h
      rw [if_neg ((changedKws_ne_nil_iff m1 m2 ks).mpr h)]
  · unfold cmSpec
    rfl

/-- C1 witness: a concrete pair with two changed keywords, evaluated
through the amended row theorem. -/
theorem c1_witness :
    Magic.magic_main readerBA ("o", "l") ["b", "a"] "V" [] =
      Cell.str "o" :: Cell.str "l" :: Cell.str (Magic.oldLatest ("o", "l")) ::
        Cell.str "V" ::
        Cell.str (toString (pyJoin "\n" ((["b x", "a x"] : List String).map pyLower)).length) ::
        Cell.str (toString (pyJoin "\n" ((["b y", "a y"] : List String).map pyLower)).length) ::
        cmSpec [("b", ["b x"]), ("a", ["a x"])] [("b", ["b y"]), ("a", ["a y"])]
          ["b", "a"] [] :=
  (c1_result_row readerBA ("o", "l") ["b", "a"] "V" [] 1 1 ["b x", "a x"]
    ["b y", "a y"] [("b", ["b x"]), ("a", ["a x"])] [("b", ["b y"]), ("a", ["a y"])]
    rfl rfl (by omega) (by omega) (by decide) (by decide) (by decide) (by decide)).1
